import Mathlib

/-!
Verification of the self-documenting code-analysis pipeline (src/main.py).

Python strings are modelled as `List Char`.  Python's `str.split(sep)`,
substring containment (`sub in s`), `str.strip()` and `str.lower()` are
modelled by executable functions below.  The external collaborators
(the language model, the search tool and the Python parser from the
`ast` module) are not part of the repository: they are modelled as
parameters (`Oracle`, `parse`), so every theorem quantifies over their
behaviour.
-/

/-- Coerce a Lean string literal to the `List Char` representation. -/
def chars (s : String) : List Char := s.toList

/-- Default whitespace stripped by Python `str.strip()` (ASCII range):
space, tab, newline, carriage return, vertical tab, form feed. -/
def pyIsSpace (c : Char) : Bool :=
  c = Char.ofNat 32 || c = Char.ofNat 9 || c = Char.ofNat 10 ||
  c = Char.ofNat 13 || c = Char.ofNat 11 || c = Char.ofNat 12

/-- Python `str.strip()`: drop leading and trailing whitespace. -/
def trimStr (s : List Char) : List Char :=
  ((s.dropWhile pyIsSpace).reverse.dropWhile pyIsSpace).reverse

/-- Index of the first occurrence of `sub` in `s` (Python `s.find(sub)`,
with `none` for "not found"). -/
def findSub (s sub : List Char) : Option Nat :=
  if sub.isPrefixOf s then some 0
  else
    match s with
    | [] => none
    | _ :: t => (findSub t sub).map (· + 1)

/-- Python substring containment `sub in s`. -/
def containsSub (s sub : List Char) : Bool :=
  (findSub s sub).isSome

/-- Fuelled worker for `pySplit`. -/
def pySplitAux (fuel : Nat) (s sep : List Char) : List (List Char) :=
  match fuel with
  | 0 => [s]
  | Nat.succ f =>
    match findSub s sep with
    | none => [s]
    | some i => s.take i :: pySplitAux f (s.drop (i + sep.length)) sep

/-- Python `str.split(sep)` for a non-empty separator: split at each
non-overlapping occurrence of `sep`, scanning left to right. -/
def pySplit (s sep : List Char) : List (List Char) :=
  pySplitAux (s.length + 1) s sep

/-- Documentation presence check from `research_node` (src/main.py:158):
`'\x22\x22\x22' in code or "'''" in code or '#' in code`. -/
def tripleSingleQuote : List Char := [Char.ofNat 39, Char.ofNat 39, Char.ofNat 39]

/-- The Research step's documentation heuristic over `original_code`. -/
def hasDocs (original_code : List Char) : Bool :=
  containsSub original_code (chars ("\"\"\"")) ||
  containsSub original_code tripleSingleQuote ||
  containsSub original_code (chars ("#"))

/-- Code-fence stripper from `document_node` (src/main.py:203-206):
`doc.split("```python")[1].split("```")[0].strip()` when a tagged fence
is present, the same with the generic marker otherwise, else identity. -/
def stripReply (documented_code : List Char) : List Char :=
  if containsSub documented_code (chars ("```python")) then
    trimStr ((pySplit ((pySplit documented_code (chars ("```python"))).getD 1 [])
      (chars ("```"))).getD 0 [])
  else if containsSub documented_code (chars ("```")) then
    trimStr ((pySplit ((pySplit documented_code (chars ("```"))).getD 1 [])
      (chars ("```"))).getD 0 [])
  else documented_code

/-- Everything up to (strictly before) the next generic fence marker
`\x60\x60\x60`; the whole text when no marker occurs. -/
def cutAtFence (s : List Char) : List Char :=
  match findSub s (chars ("```")) with
  | none => s
  | some k => s.take k

/-- Everything up to (strictly before) the next language-tagged fence;
the whole text when none occurs. -/
def segmentToNextTag (s : List Char) : List Char :=
  match findSub s (chars ("```python")) with
  | none => s
  | some j => s.take j

/-- The fence stripper exactly as the specification words it: the result
is the content strictly between the first (tagged, else generic) fence
and the next `\x60\x60\x60` marker anywhere after it, trimmed; the whole
remainder when no closing marker follows. -/
def specStripClaimed (reply : List Char) : List Char :=
  if containsSub reply (chars ("```python")) then
    match findSub reply (chars ("```python")) with
    | none => reply
    | some i => trimStr (cutAtFence (reply.drop (i + (chars ("```python")).length)))
  else if containsSub reply (chars ("```")) then
    match findSub reply (chars ("```")) with
    | none => reply
    | some i => trimStr (cutAtFence (reply.drop (i + (chars ("```")).length)))
  else reply

/-- The fence stripper as the amended claim words it: in the tagged
branch the closing marker is sought only inside the segment that ends at
the next tagged fence (content from a second tagged fence onwards is
discarded before the closing marker is sought); the generic branch is as
the specification already words it. -/
def specStripAmended (reply : List Char) : List Char :=
  if containsSub reply (chars ("```python")) then
    match findSub reply (chars ("```python")) with
    | none => reply
    | some i =>
      trimStr (cutAtFence (segmentToNextTag (reply.drop (i + (chars ("```python")).length))))
  else if containsSub reply (chars ("```")) then
    match findSub reply (chars ("```")) with
    | none => reply
    | some i => trimStr (cutAtFence (reply.drop (i + (chars ("```")).length)))
  else reply

/-- Failure-indicating keywords scanned for by `analyze_node`
(src/main.py:265). -/
def keywords : List (List Char) :=
  [chars ("error"), chars ("issue"), chars ("problem"),
   chars ("fail"), chars ("exception"), chars ("warning")]

/-- The issue-collecting loop of `analyze_node` (src/main.py:262-267):
split the reply on newlines; strip each line; append it when it
contains a keyword case-insensitively and `line and len(line) > 10`. -/
def issuesRaw (response_text : List Char) : List (List Char) :=
  (pySplit response_text (chars ("\n"))).foldl
    (fun issues line =>
      let line := trimStr line
      if keywords.any (fun keyword => containsSub (line.map Char.toLower) keyword) then
        if line ≠ [] ∧ 10 < line.length then issues ++ [line] else issues
      else issues)
    []

/-- The issue list produced by `analyze_node`, including the fallback
sentinel of src/main.py:275-276 (note: no trailing period). -/
def extractIssues (response_text : List Char) : List (List Char) :=
  let issues := issuesRaw response_text
  if issues = [] then issues ++ [chars ("No critical issues identified during analysis")]
  else issues

/-- The final reply of the analysis agent: Python checks
`isinstance(response_text, str)`; a non-string content value is carried
together with its `str()` rendering. -/
inductive ModelReply where
  | text (s : List Char)
  | nonText (rendering : List Char)

/-- The single entry `analyze_node` appends to `test_results`: the reply
itself when it is a string, its `str()` rendering otherwise. -/
def renderReply : ModelReply → List Char
  | .text s => s
  | .nonText r => r

/-- Result extraction of `analyze_node` (src/main.py:252-276): returns
the `(test_results, issues_found)` pair, including both fallbacks. -/
def analyzeExtract (response_text : ModelReply) : List (List Char) × List (List Char) :=
  let pair :=
    match response_text with
    | .text s => (([] : List (List Char)) ++ [s], issuesRaw s)
    | .nonText r => (([] : List (List Char)) ++ [r], ([] : List (List Char)))
  let test_results :=
    if pair.1 = [] then pair.1 ++ [chars ("Analysis completed but no detailed results captured")]
    else pair.1
  let issues :=
    if pair.2 = [] then pair.2 ++ [chars ("No critical issues identified during analysis")]
    else pair.2
  (test_results, issues)

/-- Python statements as far as the extractor of `research_node`
distinguishes them: a plain `ast.Import` node carries `alias.name` for
each alias, an `ast.ImportFrom` node carries `node.module` (absent for a
relative form with no module) and its alias names, and every other
statement only carries a possibly empty nested body. -/
inductive Stmt where
  | importStmt (names : List (List Char))
  | importFrom (module : Option (List Char)) (names : List (List Char))
  | compound (body : List Stmt)

/-- Child statements of a node, as `ast.iter_child_nodes` yields them. -/
def stmtChildren : Stmt → List Stmt
  | .compound b => b
  | _ => []

/-- `ast.walk`: breadth-first traversal of the tree, maintained as a
queue that is extended with each dequeued node's children. -/
def bfsWalk (q : List Stmt) : List Stmt :=
  match q with
  | [] => []
  | s :: rest => s :: bfsWalk (rest ++ stmtChildren s)
termination_by (q.map sizeOf).sum
decreasing_by
  simp only [List.map_append, List.sum_append, List.map_cons, List.sum_cons]
  have key : ∀ l : List Stmt, ((l.map sizeOf).sum : Nat) < sizeOf l := by
    intro l
    induction l with
    | nil => simp
    | cons a t ih => simp only [List.map_cons, List.sum_cons, List.cons.sizeOf_spec]; omega
  have hc : (((stmtChildren s).map sizeOf).sum : Nat) < sizeOf s := by
    cases s with
    | importStmt ns => simp [stmtChildren]
    | importFrom m ns => simp [stmtChildren]
    | compound b =>
      simp only [stmtChildren, Stmt.compound.sizeOf_spec]
      have := key b
      omega
  omega

/-- Library names one walked node contributes (src/main.py:147-153):
alias names for a plain import, `"<module>.<name>"` per alias for a
from-import with the module defaulting to the empty string. -/
def nodeLibs : Stmt → List (List Char)
  | .importStmt names => names
  | .importFrom module names => names.map (fun n => module.getD [] ++ '.' :: n)
  | .compound _ => []

/-- The import extractor of `research_node` (src/main.py:143-155): parse
the source (the `ast.parse` call is the external parser, modelled as a
parameter returning `none` exactly when it raises a syntax error — the
`except: pass` makes the result the empty list), then walk every node
and append its contribution. -/
def extractLibs (parse : List Char → Option (List Stmt)) (original_code : List Char) :
    List (List Char) :=
  match parse original_code with
  | none => []
  | some tree => (bfsWalk tree).foldl (fun libraries node => libraries ++ nodeLibs node) []

/-- The names contributed by the top-level plain `import X` statements
of a module, in source order. -/
def topPlainNames (tree : List Stmt) : List (List Char) :=
  tree.flatMap (fun s =>
    match s with
    | .importStmt names => names
    | _ => [])

/-- The workflow state `CodeState` of src/main.py:39-47. -/
structure CodeState where
  original_code : List Char
  documented_code : List Char
  has_documentation : Bool
  libraries_used : List (List Char)
  test_results : List (List Char)
  issues_found : List (List Char)
  current_step : List Char

/-- `research_node` (src/main.py:117-170): the agent reply is discarded;
the libraries and the documentation flag are computed directly from
`original_code`. -/
def research_node (parse : List Char → Option (List Stmt)) (state : CodeState) : CodeState :=
  let libraries := extractLibs parse state.original_code
  let has_docs := hasDocs state.original_code
  { state with
      libraries_used := libraries
      has_documentation := has_docs
      current_step := chars ("researched") }

/-- `document_node` (src/main.py:172-214): fence-strip the model reply
into `documented_code`. -/
def document_node (modelReply : List Char) (state : CodeState) : CodeState :=
  let documented_code := stripReply modelReply
  { state with
      documented_code := documented_code
      current_step := chars ("documented") }

/-- `analyze_node` (src/main.py:216-286): analyze the documented code if
non-empty else the original (`state.get('documented_code') or ...`),
then fill `test_results` and `issues_found` from the agent reply. -/
def analyze_node (agentReply : List Char → ModelReply) (state : CodeState) : CodeState :=
  let code_to_analyze :=
    if state.documented_code = [] then state.original_code else state.documented_code
  let response_text := agentReply code_to_analyze
  let pair := analyzeExtract response_text
  { state with
      test_results := pair.1
      issues_found := pair.2
      current_step := chars ("analyzed") }

/-- The conditional edge `should_skip_documentation` (src/main.py:289-298):
when documentation is present, write `documented_code := original_code`
into the state and answer "analyze"; otherwise answer "document" leaving
the state untouched. -/
def should_skip_documentation (state : CodeState) : CodeState × List Char :=
  if state.has_documentation then
    ({ state with documented_code := state.original_code }, chars ("analyze"))
  else
    (state, chars ("document"))

/-- `final_node` (src/main.py:353-371): only file side effects; the state
merely advances to "completed". -/
def final_node (state : CodeState) : CodeState :=
  { state with current_step := chars ("completed") }

/-- The external collaborators a run consults: the parser, the
documentation model reply (a function of the code sent) and the analysis
agent reply (a function of the code analyzed). -/
structure Oracle where
  parse : List Char → Option (List Stmt)
  docReply : List Char → List Char
  agentReply : List Char → ModelReply

/-- One pipeline run as wired by `create_workflow` (src/main.py:374-400):
research, the conditional edge, optionally document, analyze, final.
Returns the visited `(node name, resulting state)` trace. -/
def runSteps (o : Oracle) (s0 : CodeState) : List (List Char × CodeState) :=
  let s1 := research_node o.parse s0
  let routed := should_skip_documentation s1
  if routed.2 = chars ("analyze") then
    let s2 := analyze_node o.agentReply routed.1
    let s3 := final_node s2
    [(chars ("research"), s1), (chars ("analyze"), s2), (chars ("final"), s3)]
  else
    let s2 := document_node (o.docReply routed.1.original_code) routed.1
    let s3 := analyze_node o.agentReply s2
    let s4 := final_node s3
    [(chars ("research"), s1), (chars ("document"), s2),
     (chars ("analyze"), s3), (chars ("final"), s4)]

/-- Position of a step name in the declared order
start < researched < documented < analyzed < completed. -/
def stepRank (current_step : List Char) : Nat :=
  if current_step = chars ("start") then 0
  else if current_step = chars ("researched") then 1
  else if current_step = chars ("documented") then 2
  else if current_step = chars ("analyzed") then 3
  else if current_step = chars ("completed") then 4
  else 0


/-- A module whose from-import is written before its only plain import:
`from os import path` followed by `import sys`. -/
def cexTree : List Stmt :=
  [Stmt.importFrom (some (chars ("os"))) [chars ("path")], Stmt.importStmt [chars ("sys")]]

theorem findSub_nil (sub : List Char) :
    findSub ([] : List Char) sub =
      if sub.isPrefixOf ([] : List Char) then some 0 else none := by
  unfold findSub
  by_cases hp : sub.isPrefixOf ([] : List Char)
  · rw [if_pos hp]
  · rw [if_neg hp]

theorem findSub_cons (a : Char) (t sub : List Char) :
    findSub (a :: t) sub =
      if sub.isPrefixOf (a :: t) then some 0 else (findSub t sub).map (· + 1) := by
  by_cases hp : sub.isPrefixOf (a :: t)
  · rw [if_pos hp]
    conv_lhs => unfold findSub
    rw [if_pos hp]
  · rw [if_neg hp]
    conv_lhs => unfold findSub
    rw [if_neg hp]

theorem pySplitAux_succ (f : Nat) (s sep : List Char) :
    pySplitAux (f + 1) s sep =
      match findSub s sep with
      | none => [s]
      | some i => s.take i :: pySplitAux f (s.drop (i + sep.length)) sep := rfl

theorem findSub_le {s sub : List Char} {i : Nat} (h : findSub s sub = some i) :
    i + sub.length ≤ s.length := by
  induction s generalizing i with
  | nil =>
    rw [findSub_nil] at h
    by_cases hp : sub.isPrefixOf ([] : List Char)
    · rw [if_pos hp] at h
      cases h
      have hnil : sub = [] := List.prefix_nil.mp (List.isPrefixOf_iff_prefix.mp hp)
      simp [hnil]
    · rw [if_neg hp] at h
      cases h
  | cons a t ih =>
    rw [findSub_cons] at h
    by_cases hp : sub.isPrefixOf (a :: t)
    · rw [if_pos hp] at h
      cases h
      simpa using (List.isPrefixOf_iff_prefix.mp hp).length_le
    · rw [if_neg hp] at h
      cases hf : findSub t sub with
      | none => rw [hf] at h; cases h
      | some j =>
        rw [hf] at h
        simp only [Option.map_some'] at h
        cases h
        have := ih hf
        simp only [List.length_cons]
        omega

theorem pySplitAux_irrel {sep : List Char} (hsep : sep ≠ []) :
    ∀ f₁ f₂ s, s.length < f₁ → s.length < f₂ →
      pySplitAux f₁ s sep = pySplitAux f₂ s sep := by
  intro f₁
  induction f₁ with
  | zero => intro f₂ s h₁ _; omega
  | succ f ih =>
    intro f₂ s h₁ h₂
    cases f₂ with
    | zero => omega
    | succ g =>
      rw [pySplitAux_succ, pySplitAux_succ]
      cases hf : findSub s sep with
      | none => rfl
      | some i =>
        have hb := findSub_le hf
        have hpos : 0 < sep.length := List.length_pos.mpr hsep
        have hd : (s.drop (i + sep.length)).length = s.length - (i + sep.length) :=
          List.length_drop _ _
        show s.take i :: pySplitAux f (s.drop (i + sep.length)) sep =
          s.take i :: pySplitAux g (s.drop (i + sep.length)) sep
        rw [ih g (s.drop (i + sep.length)) (by omega) (by omega)]

theorem pySplit_eq (s sep : List Char) (hsep : sep ≠ []) :
    pySplit s sep =
      match findSub s sep with
      | none => [s]
      | some i => s.take i :: pySplit (s.drop (i + sep.length)) sep := by
  cases hf : findSub s sep with
  | none =>
    unfold pySplit
    rw [pySplitAux_succ]
    simp only [hf]
  | some i =>
    have hb := findSub_le hf
    have hpos : 0 < sep.length := List.length_pos.mpr hsep
    have hd : (s.drop (i + sep.length)).length = s.length - (i + sep.length) :=
      List.length_drop _ _
    unfold pySplit
    show pySplitAux (s.length + 1) s sep =
      s.take i :: pySplitAux ((s.drop (i + sep.length)).length + 1) (s.drop (i + sep.length)) sep
    rw [pySplitAux_succ]
    simp only [hf]
    exact congrArg (fun x => s.take i :: x)
      (pySplitAux_irrel hsep s.length ((s.drop (i + sep.length)).length + 1)
        (s.drop (i + sep.length)) (by omega) (by omega))

theorem containsSub_cons (a : Char) (t sub : List Char) :
    containsSub (a :: t) sub = (sub.isPrefixOf (a :: t) || containsSub t sub) := by
  unfold containsSub
  rw [findSub_cons]
  by_cases hp : sub.isPrefixOf (a :: t)
  · simp [hp]
  · simp [hp, Option.isSome_map]

theorem containsSub_iff_occurs (s sub : List Char) :
    containsSub s sub = true ↔ sub <:+: s := by
  induction s with
  | nil =>
    unfold containsSub
    rw [findSub_nil]
    by_cases hp : sub.isPrefixOf ([] : List Char)
    · have hnil : sub = [] := List.prefix_nil.mp (List.isPrefixOf_iff_prefix.mp hp)
      subst hnil
      simp [hp]
    · have hnil : sub ≠ [] := by
        intro hc
        exact hp (by simp [hc, List.isPrefixOf])
      simp [hp, List.infix_nil, hnil]
  | cons a t ih =>
    rw [containsSub_cons, List.infix_cons_iff]
    simp [List.isPrefixOf_iff_prefix, ih]

theorem findSub_take {s sub : List Char} {j : Nat} (hsub : sub ≠ []) (h : findSub s sub = some j) :
    findSub (s.take j) sub = none := by
  have hnilcase : findSub ([] : List Char) sub = none := by
    rw [findSub_nil, if_neg]
    intro hc
    exact hsub (List.prefix_nil.mp (List.isPrefixOf_iff_prefix.mp hc))
  induction s generalizing j with
  | nil =>
    rw [hnilcase] at h
    cases h
  | cons a t ih =>
    rw [findSub_cons] at h
    by_cases hp : sub.isPrefixOf (a :: t)
    · rw [if_pos hp] at h
      cases h
      simpa using hnilcase
    · rw [if_neg hp] at h
      cases hf : findSub t sub with
      | none => rw [hf] at h; cases h
      | some j' =>
        rw [hf] at h
        simp only [Option.map_some'] at h
        cases h
        show findSub (a :: t.take j') sub = none
        have hp2 : ¬ sub.isPrefixOf (a :: t.take j') := by
          intro hc
          apply hp
          have h1 : sub <+: a :: t.take j' := List.isPrefixOf_iff_prefix.mp hc
          have h2 : a :: t.take j' <+: a :: t :=
            List.cons_prefix_cons.mpr ⟨rfl, List.take_prefix j' t⟩
          exact List.isPrefixOf_iff_prefix.mpr (h1.trans h2)
        rw [findSub_cons, if_neg hp2]
        simp [ih hf]

theorem trimStr_occurs_in (s : List Char) : trimStr s <:+: s := by
  unfold trimStr
  have h1 : s.dropWhile pyIsSpace <:+ s := List.dropWhile_suffix pyIsSpace
  have h2 : (s.dropWhile pyIsSpace).reverse.dropWhile pyIsSpace <:+
      (s.dropWhile pyIsSpace).reverse := List.dropWhile_suffix pyIsSpace
  have h3 : ((s.dropWhile pyIsSpace).reverse.dropWhile pyIsSpace).reverse <+:
      ((s.dropWhile pyIsSpace).reverse).reverse := List.reverse_prefix.mpr h2
  rw [List.reverse_reverse] at h3
  exact h3.isInfix.trans h1.isInfix

theorem containsSub_of_occurs {x y sub : List Char} (hxy : x <:+: y)
    (hx : containsSub x sub = true) : containsSub y sub = true := by
  rw [containsSub_iff_occurs] at hx ⊢
  exact hx.trans hxy

theorem containsSub_false_of_occurs {x y sub : List Char} (hxy : x <:+: y)
    (hy : containsSub y sub = false) : containsSub x sub = false := by
  cases hcx : containsSub x sub with
  | false => rfl
  | true => rw [containsSub_of_occurs hxy hcx] at hy; cases hy

theorem containsSub_fence_of_tagged {s : List Char}
    (h : containsSub s (chars ("```python")) = true) :
    containsSub s (chars ("```")) = true := by
  rw [containsSub_iff_occurs] at h ⊢
  have hpre : chars ("```") <+: chars ("```python") :=
    List.isPrefixOf_iff_prefix.mp (by decide)
  exact hpre.isInfix.trans h

theorem cutAtFence_eq_of_none {s : List Char} (h : findSub s (chars ("```")) = none) :
    cutAtFence s = s := by
  unfold cutAtFence
  rw [h]

theorem cutAtFence_eq_of_some {s : List Char} {k : Nat}
    (h : findSub s (chars ("```")) = some k) : cutAtFence s = s.take k := by
  unfold cutAtFence
  rw [h]

theorem segmentToNextTag_eq_of_none {s : List Char}
    (h : findSub s (chars ("```python")) = none) : segmentToNextTag s = s := by
  unfold segmentToNextTag
  rw [h]

theorem segmentToNextTag_eq_of_some {s : List Char} {j : Nat}
    (h : findSub s (chars ("```python")) = some j) : segmentToNextTag s = s.take j := by
  unfold segmentToNextTag
  rw [h]

theorem cutAtFence_fencefree (s : List Char) :
    containsSub (cutAtFence s) (chars ("```")) = false := by
  cases hk : findSub s (chars ("```")) with
  | none =>
    rw [cutAtFence_eq_of_none hk]
    unfold containsSub
    rw [hk]
    rfl
  | some k =>
    rw [cutAtFence_eq_of_some hk]
    unfold containsSub
    rw [findSub_take (by decide) hk]
    rfl

theorem stripReply_eq_specAmended (reply : List Char) :
    stripReply reply = specStripAmended reply := by
  have htagne : chars ("```python") ≠ [] := by decide
  have hfne : chars ("```") ≠ [] := by decide
  unfold stripReply specStripAmended
  by_cases h1 : containsSub reply (chars ("```python")) = true
  · rw [if_pos h1]
    rw [if_pos h1]
    obtain ⟨i, hi⟩ : ∃ i, findSub reply (chars ("```python")) = some i := by
      unfold containsSub at h1
      exact Option.isSome_iff_exists.mp h1
    simp only [hi]
    have hgd1 : (pySplit reply (chars ("```python"))).getD 1 [] =
        (pySplit (reply.drop (i + (chars ("```python")).length))
          (chars ("```python"))).getD 0 [] := by
      rw [pySplit_eq _ _ htagne, hi]
      simp
    rw [hgd1]
    cases hj : findSub (reply.drop (i + (chars ("```python")).length)) (chars ("```python")) with
    | none =>
      rw [segmentToNextTag_eq_of_none hj]
      have hseg : (pySplit (reply.drop (i + (chars ("```python")).length))
          (chars ("```python"))).getD 0 [] =
          reply.drop (i + (chars ("```python")).length) := by
        rw [pySplit_eq _ _ htagne, hj]
        rfl
      rw [hseg]
      cases hk : findSub (reply.drop (i + (chars ("```python")).length)) (chars ("```")) with
      | none =>
        rw [cutAtFence_eq_of_none hk]
        have hin : (pySplit (reply.drop (i + (chars ("```python")).length))
            (chars ("```"))).getD 0 [] =
            reply.drop (i + (chars ("```python")).length) := by
          rw [pySplit_eq _ _ hfne, hk]
          rfl
        rw [hin]
      | some k =>
        rw [cutAtFence_eq_of_some hk]
        have hin : (pySplit (reply.drop (i + (chars ("```python")).length))
            (chars ("```"))).getD 0 [] =
            (reply.drop (i + (chars ("```python")).length)).take k := by
          rw [pySplit_eq _ _ hfne, hk]
          rfl
        rw [hin]
    | some j =>
      rw [segmentToNextTag_eq_of_some hj]
      have hseg : (pySplit (reply.drop (i + (chars ("```python")).length))
          (chars ("```python"))).getD 0 [] =
          (reply.drop (i + (chars ("```python")).length)).take j := by
        rw [pySplit_eq _ _ htagne, hj]
        rfl
      rw [hseg]
      cases hk : findSub ((reply.drop (i + (chars ("```python")).length)).take j)
          (chars ("```")) with
      | none =>
        rw [cutAtFence_eq_of_none hk]
        have hin : (pySplit ((reply.drop (i + (chars ("```python")).length)).take j)
            (chars ("```"))).getD 0 [] =
            (reply.drop (i + (chars ("```python")).length)).take j := by
          rw [pySplit_eq _ _ hfne, hk]
          rfl
        rw [hin]
      | some k =>
        rw [cutAtFence_eq_of_some hk]
        have hin : (pySplit ((reply.drop (i + (chars ("```python")).length)).take j)
            (chars ("```"))).getD 0 [] =
            ((reply.drop (i + (chars ("```python")).length)).take j).take k := by
          rw [pySplit_eq _ _ hfne, hk]
          rfl
        rw [hin]
  · rw [if_neg h1]
    rw [if_neg h1]
    by_cases h2 : containsSub reply (chars ("```")) = true
    · rw [if_pos h2]
      rw [if_pos h2]
      obtain ⟨i, hi⟩ : ∃ i, findSub reply (chars ("```")) = some i := by
        unfold containsSub at h2
        exact Option.isSome_iff_exists.mp h2
      simp only [hi]
      have hgd1 : (pySplit reply (chars ("```"))).getD 1 [] =
          (pySplit (reply.drop (i + (chars ("```")).length)) (chars ("```"))).getD 0 [] := by
        rw [pySplit_eq _ _ hfne, hi]
        simp
      rw [hgd1]
      cases hj : findSub (reply.drop (i + (chars ("```")).length)) (chars ("```")) with
      | none =>
        rw [cutAtFence_eq_of_none hj]
        have hseg : (pySplit (reply.drop (i + (chars ("```")).length))
            (chars ("```"))).getD 0 [] = reply.drop (i + (chars ("```")).length) := by
          rw [pySplit_eq _ _ hfne, hj]
          rfl
        rw [hseg]
        have hin : (pySplit (reply.drop (i + (chars ("```")).length))
            (chars ("```"))).getD 0 [] = reply.drop (i + (chars ("```")).length) := hseg
        rw [hin]
      | some j =>
        rw [cutAtFence_eq_of_some hj]
        have hseg : (pySplit (reply.drop (i + (chars ("```")).length))
            (chars ("```"))).getD 0 [] = (reply.drop (i + (chars ("```")).length)).take j := by
          rw [pySplit_eq _ _ hfne, hj]
          rfl
        rw [hseg]
        have hin : (pySplit ((reply.drop (i + (chars ("```")).length)).take j)
            (chars ("```"))).getD 0 [] = (reply.drop (i + (chars ("```")).length)).take j := by
          rw [pySplit_eq _ _ hfne, findSub_take hfne hj]
          rfl
        rw [hin]
    · rw [if_neg h2]
      rw [if_neg h2]

theorem stripReply_of_fencefree (s : List Char)
    (h : containsSub s (chars ("```")) = false) : stripReply s = s := by
  have h1 : containsSub s (chars ("```python")) = false := by
    cases hc : containsSub s (chars ("```python")) with
    | false => rfl
    | true => rw [containsSub_fence_of_tagged hc] at h; cases h
  unfold stripReply
  rw [if_neg (by simp [h1])]
  rw [if_neg (by simp [h])]

theorem stripReply_out_fencefree (reply : List Char) :
    stripReply reply = reply ∨
    containsSub (stripReply reply) (chars ("```")) = false := by
  rw [stripReply_eq_specAmended]
  unfold specStripAmended
  by_cases h1 : containsSub reply (chars ("```python")) = true
  · rw [if_pos h1]
    cases hi : findSub reply (chars ("```python")) with
    | none => left; rfl
    | some i =>
      right
      exact containsSub_false_of_occurs (trimStr_occurs_in _) (cutAtFence_fencefree _)
  · rw [if_neg h1]
    by_cases h2 : containsSub reply (chars ("```")) = true
    · rw [if_pos h2]
      cases hi : findSub reply (chars ("```")) with
      | none => left; rfl
      | some i =>
        right
        exact containsSub_false_of_occurs (trimStr_occurs_in _) (cutAtFence_fencefree _)
    · rw [if_neg h2]
      left
      rfl

/-- C4 (amended): the Code-Fence Stripper equals, on every reply, the
spec-described extraction with one correction — in the tagged branch the
closing marker is sought only in the segment that ends at the next
tagged fence (content from a second tagged fence onwards is discarded
first); the untagged branch and the pass-through branch are exactly as
the claim states them. -/
theorem c4_code_fence_stripper (reply : List Char) :
    stripReply reply = specStripAmended reply :=
  stripReply_eq_specAmended reply

/-- C4 counterexample: on `"\x60\x60\x60pythonx\x60\x60\x60\x60python"`
the code keeps the straddling backtick (result `"x\x60"`), while the
claim's "content strictly between the first tagged fence and the next
fence marker, trimmed" yields `"x"`. -/
theorem c4_code_fence_stripper_cex :
    stripReply (chars ("```pythonx````python")) = chars ("x`") ∧
    specStripClaimed (chars ("```pythonx````python")) = chars ("x") ∧
    stripReply (chars ("```pythonx````python")) ≠
      specStripClaimed (chars ("```pythonx````python")) := by
  refine ⟨by decide, by decide, by decide⟩

/-- C8: the Code-Fence Stripper returns every fence-free string
unchanged, and is therefore idempotent: stripping twice equals
stripping once on every reply. -/
theorem c8_stripper_idempotent :
    (∀ s, containsSub s (chars ("```")) = false → stripReply s = s) ∧
    (∀ reply, stripReply (stripReply reply) = stripReply reply) := by
  refine ⟨fun s h => stripReply_of_fencefree s h, fun reply => ?_⟩
  cases stripReply_out_fencefree reply with
  | inl h => rw [h]; exact h
  | inr h => exact stripReply_of_fencefree _ h

theorem c8_stripper_idempotent_witness :
    stripReply (chars ("def f(x): return x + 1")) = chars ("def f(x): return x + 1") :=
  c8_stripper_idempotent.1 (chars ("def f(x): return x + 1")) (by decide)

theorem issuesLoop_eq (xs : List (List Char)) (acc : List (List Char)) :
    xs.foldl
      (fun issues line =>
        let line := trimStr line
        if keywords.any (fun keyword => containsSub (line.map Char.toLower) keyword) then
          if line ≠ [] ∧ 10 < line.length then issues ++ [line] else issues
        else issues)
      acc =
    acc ++ (xs.map trimStr).filter
      (fun line => keywords.any (fun keyword => containsSub (line.map Char.toLower) keyword)
        && decide (10 < line.length)) := by
  induction xs generalizing acc with
  | nil => simp
  | cons x t ih =>
    simp only [List.foldl_cons, List.map_cons, List.filter_cons]
    rw [ih]
    by_cases h1 : keywords.any (fun keyword =>
        containsSub ((trimStr x).map Char.toLower) keyword) = true
    · by_cases h2 : 10 < (trimStr x).length
      · have hne : trimStr x ≠ [] := by
          intro hc
          rw [hc] at h2
          simp at h2
        simp [h1, h2, hne]
      · simp [h1, h2]
    · simp [h1]

theorem issuesRaw_eq (response_text : List Char) :
    issuesRaw response_text =
      ((pySplit response_text (chars ("\n"))).map trimStr).filter
        (fun line => keywords.any (fun keyword => containsSub (line.map Char.toLower) keyword)
          && decide (10 < line.length)) := by
  unfold issuesRaw
  rw [issuesLoop_eq]
  simp

/-- C1 (amended): splitting the report into lines, a trimmed line is kept
in `issues_found` (verbatim, in order) exactly when it case-insensitively
contains one of the six keywords and its length exceeds 10 characters;
when no line qualifies the list is the one-element sentinel
`"No critical issues identified during analysis"` — without the trailing
period the claim quotes. -/
theorem c1_issue_extractor (response_text : List Char) :
    extractIssues response_text =
      (if ((pySplit response_text (chars ("\n"))).map trimStr).filter
          (fun line => keywords.any (fun keyword => containsSub (line.map Char.toLower) keyword)
            && decide (10 < line.length)) = [] then
        [chars ("No critical issues identified during analysis")]
      else
        ((pySplit response_text (chars ("\n"))).map trimStr).filter
          (fun line => keywords.any (fun keyword => containsSub (line.map Char.toLower) keyword)
            && decide (10 < line.length))) := by
  unfold extractIssues
  rw [issuesRaw_eq]
  by_cases hq : ((pySplit response_text (chars ("\n"))).map trimStr).filter
      (fun line => keywords.any (fun keyword => containsSub (line.map Char.toLower) keyword)
        && decide (10 < line.length)) = []
  · rw [if_pos hq, if_pos hq, hq]
    rfl
  · rw [if_neg hq, if_neg hq]

/-- C1 counterexample: on the empty report no line qualifies and the
sentinel of the code has no trailing period, so `issues_found` is not
the claim's `["No critical issues identified during analysis."]`. -/
theorem c1_issue_extractor_cex :
    extractIssues (chars ("")) = [chars ("No critical issues identified during analysis")] ∧
    extractIssues (chars ("")) ≠ [chars ("No critical issues identified during analysis.")] := by
  refine ⟨by decide, by decide⟩

/-- C2: `has_documentation` is true exactly when the source contains a
triple double-quote, a triple single-quote, or a `#` character anywhere;
in particular any `#` makes it true. -/
theorem c2_has_documentation (original_code : List Char) :
    (hasDocs original_code = true ↔
      (chars ("\"\"\"") <:+: original_code ∨ tripleSingleQuote <:+: original_code ∨
        '#' ∈ original_code)) ∧
    ('#' ∈ original_code → hasDocs original_code = true) := by
  have hc : chars ("#") = ['#'] := rfl
  have hhash : containsSub original_code (chars ("#")) = true ↔ '#' ∈ original_code := by
    rw [containsSub_iff_occurs, hc]
    constructor
    · rintro ⟨u, v, rfl⟩
      simp
    · intro h
      obtain ⟨u, v, rfl⟩ := List.mem_iff_append.mp h
      exact ⟨u, v, by simp⟩
  have main : hasDocs original_code = true ↔
      (chars ("\"\"\"") <:+: original_code ∨ tripleSingleQuote <:+: original_code ∨
        '#' ∈ original_code) := by
    unfold hasDocs
    rw [Bool.or_eq_true, Bool.or_eq_true, containsSub_iff_occurs, containsSub_iff_occurs, hhash]
    exact or_assoc
  exact ⟨main, fun h => main.mpr (Or.inr (Or.inr h))⟩

theorem c2_has_documentation_witness :
    hasDocs (chars ("x = 1  # inline note")) = true :=
  (c2_has_documentation (chars ("x = 1  # inline note"))).2 (by decide)

/-- C5 (amended): the Analyze step always records exactly one entry in
`test_results`: the reply itself when it is text (even when empty), its
string rendering when it is not; the sentinel fallback never fires. -/
theorem c5_test_results_recording :
    (∀ s, (analyzeExtract (ModelReply.text s)).1 = [s]) ∧
    (∀ r, (analyzeExtract (ModelReply.nonText r)).1 = [r]) := by
  constructor
  · intro s
    simp [analyzeExtract]
  · intro r
    simp [analyzeExtract]

/-- C5 counterexample: an empty text report yields `test_results = [""]`,
not the sentinel the claim requires for empty reports. -/
theorem c5_test_results_recording_cex :
    (analyzeExtract (ModelReply.text [])).1 = [([] : List Char)] ∧
    (analyzeExtract (ModelReply.text [])).1 ≠
      [chars ("Analysis completed but no detailed results captured")] := by
  refine ⟨by decide, by decide⟩

/-- C10: for every reply the `test_results` fallback of `analyze_node` is
unreachable — exactly one entry (the reply, or its string rendering) is
present before the emptiness check, so `test_results` has length one and
the sentinel branch is never taken. -/
theorem c10_fallback_unreachable (response_text : ModelReply) :
    (analyzeExtract response_text).1 = [renderReply response_text] ∧
    ((analyzeExtract response_text).1).length = 1 := by
  cases response_text with
  | text s => simp [analyzeExtract, renderReply]
  | nonText r => simp [analyzeExtract, renderReply]

/-- C6: on every source the parser rejects (modelled by the parse
collaborator returning `none`, exactly when `ast.parse` raises), the
Import Extractor returns the empty list; totality of `extractLibs` is
the "does not raise" half. -/
theorem c6_invalid_source (parse : List Char → Option (List Stmt)) (src : List Char)
    (h : parse src = none) : extractLibs parse src = [] := by
  unfold extractLibs
  rw [h]

theorem c6_invalid_source_witness :
    extractLibs (fun _ => none) (chars ("def f(:")) = [] :=
  c6_invalid_source (fun _ => none) (chars ("def f(:")) rfl

theorem bfsWalk_append (q : List Stmt) : ∀ ext, ∃ tail, bfsWalk (q ++ ext) = q ++ tail := by
  induction q with
  | nil =>
    intro ext
    exact ⟨bfsWalk ext, by simp⟩
  | cons s q' ih =>
    intro ext
    obtain ⟨tail, ht⟩ := ih (ext ++ stmtChildren s)
    refine ⟨tail, ?_⟩
    have hstep : bfsWalk ((s :: q') ++ ext) = s :: bfsWalk ((q' ++ ext) ++ stmtChildren s) := by
      simp only [List.cons_append, bfsWalk]
    rw [hstep, List.append_assoc, ht]
    rfl

theorem topPlainNames_sublist_flatMap (tree : List Stmt) :
    List.Sublist (topPlainNames tree) (tree.flatMap nodeLibs) := by
  induction tree with
  | nil => simp [topPlainNames]
  | cons s t ih =>
    unfold topPlainNames at ih ⊢
    simp only [List.flatMap_cons]
    refine List.Sublist.append ?_ ih
    cases s with
    | importStmt ns => exact List.Sublist.refl ns
    | importFrom m ns => exact List.nil_sublist _
    | compound b => exact List.nil_sublist _

theorem foldlLibs_eq (l : List Stmt) (acc : List (List Char)) :
    l.foldl (fun libraries node => libraries ++ nodeLibs node) acc =
      acc ++ l.flatMap nodeLibs := by
  induction l generalizing acc with
  | nil => simp
  | cons s t ih =>
    simp only [List.foldl_cons, List.flatMap_cons]
    rw [ih, List.append_assoc]

/-- C7 (amended): on every successfully parsed module, the library list
is the concatenation, in breadth-first tree-walk order, of each node's
contribution (alias names for plain imports, `"<module>.<name>"` per
alias for from-imports, module defaulting to empty, duplicates kept);
the names of the top-level plain imports appear in it in source order,
as a sublist — but not necessarily before from-import entries. -/
theorem c7_import_extraction (parse : List Char → Option (List Stmt)) (src : List Char)
    (tree : List Stmt) (h : parse src = some tree) :
    extractLibs parse src = (bfsWalk tree).flatMap nodeLibs ∧
    List.Sublist (topPlainNames tree) (extractLibs parse src) := by
  have hx : extractLibs parse src = (bfsWalk tree).flatMap nodeLibs := by
    unfold extractLibs
    simp only [h]
    rw [foldlLibs_eq]
    simp
  refine ⟨hx, ?_⟩
  rw [hx]
  obtain ⟨tail, ht⟩ := bfsWalk_append tree []
  rw [List.append_nil] at ht
  rw [ht, List.flatMap_append]
  exact (topPlainNames_sublist_flatMap tree).trans (List.sublist_append_left _ _)

theorem c7_import_extraction_witness :
    extractLibs (fun _ => some [Stmt.importStmt [chars ("math")]]) (chars ("x")) =
      (bfsWalk [Stmt.importStmt [chars ("math")]]).flatMap nodeLibs ∧
    List.Sublist (topPlainNames [Stmt.importStmt [chars ("math")]])
      (extractLibs (fun _ => some [Stmt.importStmt [chars ("math")]]) (chars ("x"))) :=
  c7_import_extraction (fun _ => some [Stmt.importStmt [chars ("math")]]) (chars ("x"))
    [Stmt.importStmt [chars ("math")]] rfl

/-- C7 counterexample: in `cexTree` the from-import precedes the only
top-level plain import, so the returned list is
`["os.path", "sys"]` — the plain-import name `"sys"` (index 1) does not
appear before the from-import entry `"os.path"` (index 0), contradicting
the claimed ordering. -/
theorem c7_import_extraction_cex :
    extractLibs (fun _ => some cexTree) (chars ("from os import path\nimport sys")) =
      [chars ("os.path"), chars ("sys")] ∧
    topPlainNames cexTree = [chars ("sys")] ∧
    List.indexOf (chars ("os.path"))
      (extractLibs (fun _ => some cexTree) (chars ("from os import path\nimport sys"))) = 0 ∧
    List.indexOf (chars ("sys"))
      (extractLibs (fun _ => some cexTree) (chars ("from os import path\nimport sys"))) = 1 := by
  have hwalk : bfsWalk cexTree = cexTree := by
    simp [cexTree, bfsWalk, stmtChildren]
  have hlibs : extractLibs (fun _ => some cexTree)
      (chars ("from os import path\nimport sys")) = [chars ("os.path"), chars ("sys")] := by
    show (bfsWalk cexTree).foldl (fun libraries node => libraries ++ nodeLibs node) [] =
      [chars ("os.path"), chars ("sys")]
    rw [hwalk]
    decide
  refine ⟨hlibs, by decide, ?_, ?_⟩
  · rw [hlibs]
    decide
  · rw [hlibs]
    decide

/-- C3: the Router answers exactly one of "document"/"analyze"; when
`has_documentation` is true it writes `documented_code := original_code`
and answers "analyze", and the run's trace is research, analyze, final —
Document is never invoked and `documented_code` equals the run's
original code in the state recorded at the Analyze step; when false it
answers "document" and leaves the state untouched. -/
theorem c3_router (state : CodeState) (o : Oracle) (s0 : CodeState) :
    ((should_skip_documentation state).2 = chars ("analyze") ∨
      (should_skip_documentation state).2 = chars ("document")) ∧
    (state.has_documentation = true →
      (should_skip_documentation state).2 = chars ("analyze") ∧
      (should_skip_documentation state).1.documented_code = state.original_code) ∧
    (state.has_documentation = false →
      (should_skip_documentation state).2 = chars ("document") ∧
      (should_skip_documentation state).1 = state) ∧
    ((research_node o.parse s0).has_documentation = true →
      (runSteps o s0).map Prod.fst =
        [chars ("research"), chars ("analyze"), chars ("final")] ∧
      chars ("document") ∉ (runSteps o s0).map Prod.fst ∧
      ((runSteps o s0).getD 1 (chars ("analyze"), s0)).2.documented_code =
        s0.original_code) := by
  refine ⟨?_, ?_, ?_, ?_⟩
  · by_cases hd : state.has_documentation <;> simp [should_skip_documentation, hd]
  · intro hd
    simp [should_skip_documentation, hd]
  · intro hd
    simp [should_skip_documentation, hd]
  · intro hd
    have hroute : (should_skip_documentation (research_node o.parse s0)).2 =
        chars ("analyze") := by
      simp [should_skip_documentation, hd]
    have hroute1 : (should_skip_documentation (research_node o.parse s0)).1.documented_code =
        (research_node o.parse s0).original_code := by
      simp [should_skip_documentation, hd]
    have hrun : runSteps o s0 =
        [(chars ("research"), research_node o.parse s0),
         (chars ("analyze"), analyze_node o.agentReply
            (should_skip_documentation (research_node o.parse s0)).1),
         (chars ("final"), final_node (analyze_node o.agentReply
            (should_skip_documentation (research_node o.parse s0)).1))] := by
      simp only [runSteps]
      rw [if_pos hroute]
    rw [hrun]
    refine ⟨by simp, ?_, ?_⟩
    · simp only [List.map_cons, List.map_nil]
      decide
    have hpres : (analyze_node o.agentReply
        (should_skip_documentation (research_node o.parse s0)).1).documented_code =
        (should_skip_documentation (research_node o.parse s0)).1.documented_code := by
      simp [analyze_node]
    have horig : (research_node o.parse s0).original_code = s0.original_code := by
      simp [research_node]
    show (analyze_node o.agentReply
        (should_skip_documentation (research_node o.parse s0)).1).documented_code =
      s0.original_code
    rw [hpres, hroute1, horig]

theorem c3_router_witness :
    (runSteps (Oracle.mk (fun _ => none) (fun r => r) (fun _ => ModelReply.text []))
        (CodeState.mk (chars ("# x")) [] false [] [] [] (chars ("start")))).map Prod.fst =
      [chars ("research"), chars ("analyze"), chars ("final")] :=
  ((c3_router (CodeState.mk (chars ("# x")) [] false [] [] [] (chars ("start")))
      (Oracle.mk (fun _ => none) (fun r => r) (fun _ => ModelReply.text []))
      (CodeState.mk (chars ("# x")) [] false [] [] [] (chars ("start")))).2.2.2
    (by decide)).1

/-- C9: along every pipeline run started at `current_step = "start"`,
`current_step` advances strictly through the order
start < researched < documented < analyzed < completed — every executed
step's output ranks strictly above its input, with no regression
(the documented rank is skipped when the Document step is skipped). -/
theorem c9_monotone_steps (o : Oracle) (s0 : CodeState)
    (h : s0.current_step = chars ("start")) :
    List.Chain (fun a b => stepRank a.current_step < stepRank b.current_step)
      s0 ((runSteps o s0).map Prod.snd) := by
  have hres : (research_node o.parse s0).current_step = chars ("researched") := by
    simp [research_node]
  by_cases hd : (research_node o.parse s0).has_documentation = true
  · have hroute : (should_skip_documentation (research_node o.parse s0)).2 =
        chars ("analyze") := by
      simp [should_skip_documentation, hd]
    have hrun : runSteps o s0 =
        [(chars ("research"), research_node o.parse s0),
         (chars ("analyze"), analyze_node o.agentReply
            (should_skip_documentation (research_node o.parse s0)).1),
         (chars ("final"), final_node (analyze_node o.agentReply
            (should_skip_documentation (research_node o.parse s0)).1))] := by
      simp only [runSteps]
      rw [if_pos hroute]
    rw [hrun]
    simp only [List.map_cons, List.map_nil]
    refine List.Chain.cons ?_ (List.Chain.cons ?_ (List.Chain.cons ?_ List.Chain.nil))
    · rw [h, hres]
      decide
    · rw [hres, show (analyze_node o.agentReply
          (should_skip_documentation (research_node o.parse s0)).1).current_step =
          chars ("analyzed") from by simp [analyze_node]]
      decide
    · rw [show (analyze_node o.agentReply
          (should_skip_documentation (research_node o.parse s0)).1).current_step =
          chars ("analyzed") from by simp [analyze_node],
        show (final_node (analyze_node o.agentReply
          (should_skip_documentation (research_node o.parse s0)).1)).current_step =
          chars ("completed") from by simp [final_node]]
      decide
  · have hroute : (should_skip_documentation (research_node o.parse s0)).2 =
        chars ("document") := by
      simp [should_skip_documentation, hd]
    have hif : ¬ ((should_skip_documentation (research_node o.parse s0)).2 =
        chars ("analyze")) := by
      rw [hroute]
      decide
    have hrun : runSteps o s0 =
        [(chars ("research"), research_node o.parse s0),
         (chars ("document"), document_node
            (o.docReply (should_skip_documentation (research_node o.parse s0)).1.original_code)
            (should_skip_documentation (research_node o.parse s0)).1),
         (chars ("analyze"), analyze_node o.agentReply (document_node
            (o.docReply (should_skip_documentation (research_node o.parse s0)).1.original_code)
            (should_skip_documentation (research_node o.parse s0)).1)),
         (chars ("final"), final_node (analyze_node o.agentReply (document_node
            (o.docReply (should_skip_documentation (research_node o.parse s0)).1.original_code)
            (should_skip_documentation (research_node o.parse s0)).1)))] := by
      simp only [runSteps]
      rw [if_neg hif]
    rw [hrun]
    simp only [List.map_cons, List.map_nil]
    refine List.Chain.cons ?_ (List.Chain.cons ?_
      (List.Chain.cons ?_ (List.Chain.cons ?_ List.Chain.nil)))
    · rw [h, hres]
      decide
    · rw [hres, show (document_node
          (o.docReply (should_skip_documentation (research_node o.parse s0)).1.original_code)
          (should_skip_documentation (research_node o.parse s0)).1).current_step =
          chars ("documented") from by simp [document_node]]
      decide
    · rw [show (document_node
          (o.docReply (should_skip_documentation (research_node o.parse s0)).1.original_code)
          (should_skip_documentation (research_node o.parse s0)).1).current_step =
          chars ("documented") from by simp [document_node],
        show (analyze_node o.agentReply (document_node
          (o.docReply (should_skip_documentation (research_node o.parse s0)).1.original_code)
          (should_skip_documentation (research_node o.parse s0)).1)).current_step =
          chars ("analyzed") from by simp [analyze_node]]
      decide
    · rw [show (analyze_node o.agentReply (document_node
          (o.docReply (should_skip_documentation (research_node o.parse s0)).1.original_code)
          (should_skip_documentation (research_node o.parse s0)).1)).current_step =
          chars ("analyzed") from by simp [analyze_node],
        show (final_node (analyze_node o.agentReply (document_node
          (o.docReply (should_skip_documentation (research_node o.parse s0)).1.original_code)
          (should_skip_documentation (research_node o.parse s0)).1))).current_step =
          chars ("completed") from by simp [final_node]]
      decide

theorem c9_monotone_steps_witness :
    List.Chain (fun a b => stepRank a.current_step < stepRank b.current_step)
      (CodeState.mk (chars ("y = 2")) [] false [] [] [] (chars ("start")))
      ((runSteps (Oracle.mk (fun _ => none) (fun r => r) (fun _ => ModelReply.text []))
          (CodeState.mk (chars ("y = 2")) [] false [] [] [] (chars ("start")))).map
        Prod.snd) :=
  c9_monotone_steps (Oracle.mk (fun _ => none) (fun r => r) (fun _ => ModelReply.text []))
    (CodeState.mk (chars ("y = 2")) [] false [] [] [] (chars ("start"))) rfl
